import Mathlib

/-!
Shallow embedding of the chat server in src/server/server.js and the
pagination contract used by src/client/src/socket/socket.js.

The server keeps three process-wide registries
  users       : socketId -> (username, id, room)         (Session Registry)
  rooms       : roomName -> list of messages             (Room Directory logs)
  typingUsers : socketId -> username                     (Presence Tracker)
plus the socket.io room-membership relation (a set of (roomName, socketId)
pairs; each connected socket is also a member of the room named by its own
id, which is how one-to-one emits are addressed).

Handlers are modelled as a step function on this state; the clock value that
the JS code reads with Date.now at each event is passed in as an input.
-/

/-- JS string default: the expression v or d, where an absent or empty
string is falsy and selects the default d. -/
def jsOrStr (v : Option String) (d : String) : String :=
  match v with
  | some s => if s = "" then d else s
  | none => d

/-- JS optional field normalisation: the expression v or null, where an
absent or empty string becomes null. -/
def jsOrNull (v : Option String) : Option String :=
  match v with
  | some s => if s = "" then none else some s
  | none => none

/-- One entry of the users registry: users of server.js stores
objects of shape username, id, room. -/
structure UserRec where
  username : String
  id : String
  room : String
deriving DecidableEq

/-- One reaction entry pushed by the react_message handler. -/
structure Reaction where
  userId : String
  reaction : String
deriving DecidableEq

/-- A message record as built by createMessage in server.js. -/
structure Message where
  id : Nat
  sender : String
  senderId : String
  message : String
  timestamp : Nat
  room : String
  isPrivate : Bool
  fileData : Option String
  fileName : Option String
  reactions : List Reaction
  readers : List String
deriving DecidableEq

/-- createMessage of server.js: id and timestamp come from the clock
(Date.now at the moment of creation); a missing room defaults to the
string global via the JS or-default. -/
def createMessage (clock : Nat) (sender senderId : String)
    (text room : Option String) (isPriv : Bool)
    (fileData fileName : Option String) : Message :=
  { id := clock
    sender := sender
    senderId := senderId
    message := jsOrStr text ""
    timestamp := clock
    room := jsOrStr room "global"
    isPrivate := isPriv
    fileData := jsOrNull fileData
    fileName := jsOrNull fileName
    reactions := []
    readers := [] }

/-- Property lookup on a JS object modelled as an association list in key
insertion order. -/
def jsGet {α : Type} : List (String × α) → String → Option α
  | [], _ => none
  | (k, v) :: rest, key => if k = key then some v else jsGet rest key

/-- Property assignment on a JS object: an existing key keeps its position,
a new key is appended at the end of the insertion order. -/
def jsSet {α : Type} : List (String × α) → String → α → List (String × α)
  | [], key, v => [(key, v)]
  | (k, w) :: rest, key, v =>
      if k = key then (key, v) :: rest else (k, w) :: jsSet rest key v

/-- Property deletion on a JS object. -/
def jsDelete {α : Type} : List (String × α) → String → List (String × α)
  | [], _ => []
  | (k, w) :: rest, key =>
      if k = key then jsDelete rest key else (k, w) :: jsDelete rest key

/-- socket.join: adds the (room, socket) pair to the socket.io membership
relation; joining a room the socket is already in is a no-op. -/
def ioJoin (ps : List (String × String)) (r sid : String) :
    List (String × String) :=
  if (r, sid) ∈ ps then ps else ps ++ [(r, sid)]

/-- socket.leave: removes the (room, socket) pair from the membership
relation. -/
def ioLeave (ps : List (String × String)) (r sid : String) :
    List (String × String) :=
  ps.filter (fun p => !(p.1 == r && p.2 == sid))

/-- Transport-level cleanup on disconnect: the socket leaves every
socket.io room it is in, its personal room included. -/
def ioLeaveAll (ps : List (String × String)) (sid : String) :
    List (String × String) :=
  ps.filter (fun p => p.2 != sid)

/-- The sockets currently in a given socket.io room. -/
def ioMembers (ps : List (String × String)) (r : String) : List String :=
  (ps.filter (fun p => p.1 == r)).map Prod.snd

/-- The process-wide state of server.js. -/
structure ServerState where
  users : List (String × UserRec)
  rooms : List (String × List Message)
  typingUsers : List (String × String)
  ioRooms : List (String × String)
deriving DecidableEq

/-- The state at server start: all registries empty. -/
def initialState : ServerState :=
  { users := [], rooms := [], typingUsers := [], ioRooms := [] }

/-- Mutation performed by the react_message handler on one room log:
push the reaction onto the first message whose id matches. -/
def reactLog (mid : Nat) (en : Reaction) : List Message → List Message
  | [] => []
  | m :: ms =>
      if m.id = mid then
        { m with reactions := m.reactions ++ [en] } :: ms
      else m :: reactLog mid en ms

/-- The react_message loop over the rooms object: the first room (in
insertion order) whose log holds a message with the given id receives the
reaction and is reported for the broadcast; the loop then breaks. -/
def reactRooms (mid : Nat) (en : Reaction) :
    List (String × List Message) →
    List (String × List Message) × Option String
  | [] => ([], none)
  | (r, log) :: rest =>
      if log.any (fun m => m.id == mid) then
        ((r, reactLog mid en log) :: rest, some r)
      else
        let res := reactRooms mid en rest
        ((r, log) :: res.1, res.2)

/-- Mutation performed by the read_message handler on one room log: find
the first message whose id matches; when the reader is not yet recorded,
append it and report the updated readers list for the broadcast. -/
def readLog (mid : Nat) (name : String) :
    List Message → List Message × Option (List String)
  | [] => ([], none)
  | m :: ms =>
      if m.id = mid then
        if name ∈ m.readers then (m :: ms, none)
        else ({ m with readers := m.readers ++ [name] } :: ms,
              some (m.readers ++ [name]))
      else
        let res := readLog mid name ms
        (m :: res.1, res.2)

/-- The read_message loop over the rooms object: every room is visited (no
break); each room whose log gained the reader is reported for a broadcast
together with the updated readers list. -/
def readRooms (mid : Nat) (name : String) :
    List (String × List Message) →
    List (String × List Message) × List (String × List String)
  | [] => ([], [])
  | (r, log) :: rest =>
      let here := readLog mid name log
      let res := readRooms mid name rest
      ((r, here.1) :: res.1,
       (match here.2 with
        | some readers => [(r, readers)]
        | none => []) ++ res.2)

/-- The client-to-server events handled by server.js, together with the
transport-level connection and disconnection of a socket. -/
inductive Event where
  | connect (sid : String)
  | userJoin (sid username : String)
  | joinRoom (sid roomName : String)
  | sendMessage (sid text : String)
  | privateMessage (sid dest text : String)
  | sendFile (sid fileName fileData : String)
  | typing (sid : String) (isTyping : Bool)
  | reactMessage (sid : String) (messageId : Nat) (reaction : String)
  | readMessage (sid : String) (messageId : Nat)
  | disconnect (sid : String)
deriving DecidableEq

/-- The emissions a handler performs, with the computed audience: either a
named broadcast scope or, for a private message, the explicit list of
target sockets. -/
inductive Emit where
  | userList (us : List UserRec)
  | userJoined (username sid : String)
  | roomMessages (target : String) (msgs : List Message)
  | roomUsers (room : String) (us : List UserRec)
  | receiveMessage (room : String) (m : Message)
  | privateMsg (targets : List String) (m : Message)
  | typingList (names : List String)
  | messageReaction (room : String) (messageId : Nat) (reaction : String)
  | messageRead (room : String) (messageId : Nat) (readers : List String)
  | userLeft (username sid : String)
deriving DecidableEq

/-- One event handled by server.js: a direct translation of the handler
bodies. The clock is the value Date.now would return while the handler
runs. -/
def step (clock : Nat) (st : ServerState) (e : Event) :
    ServerState × List Emit :=
  match e with
  | .connect sid =>
      ({ st with ioRooms := ioJoin st.ioRooms sid sid }, [])
  | .userJoin sid username =>
      let users' := jsSet st.users sid ⟨username, sid, "global"⟩
      ({ st with users := users',
                 ioRooms := ioJoin st.ioRooms "global" sid },
       [.userList (users'.map Prod.snd), .userJoined username sid])
  | .joinRoom sid roomName =>
      match jsGet st.users sid with
      | none => (st, [])
      | some u =>
          let io1 := if u.room ≠ "" then ioLeave st.ioRooms u.room sid
                     else st.ioRooms
          let io2 := ioJoin io1 roomName sid
          let users' := jsSet st.users sid { u with room := roomName }
          let rooms' := if (jsGet st.rooms roomName).isNone then
                          jsSet st.rooms roomName []
                        else st.rooms
          let log := (jsGet rooms' roomName).getD []
          let inRoom := (users'.map Prod.snd).filter
            (fun v => v.room == roomName)
          ({ st with users := users', rooms := rooms', ioRooms := io2 },
           [.roomMessages sid log, .roomUsers roomName inRoom])
  | .sendMessage sid text =>
      match jsGet st.users sid with
      | none => (st, [])
      | some u =>
          let m := createMessage clock u.username sid (some text)
            (some u.room) false none none
          let log := (jsGet st.rooms u.room).getD []
          ({ st with rooms := jsSet st.rooms u.room (log ++ [m]) },
           [.receiveMessage u.room m])
  | .privateMessage sid dest text =>
      match jsGet st.users sid with
      | none => (st, [])
      | some u =>
          let m := createMessage clock u.username sid (some text)
            none true none none
          let targets :=
            (ioMembers st.ioRooms dest).filter (fun s => s != sid) ++ [sid]
          (st, [.privateMsg targets m])
  | .sendFile sid fileName fileData =>
      match jsGet st.users sid with
      | none => (st, [])
      | some u =>
          let m := createMessage clock u.username sid none
            (some u.room) false (some fileData) (some fileName)
          let log := (jsGet st.rooms u.room).getD []
          ({ st with rooms := jsSet st.rooms u.room (log ++ [m]) },
           [.receiveMessage u.room m])
  | .typing sid isTyping =>
      match jsGet st.users sid with
      | none => (st, [])
      | some u =>
          let t' := if isTyping then jsSet st.typingUsers sid u.username
                    else jsDelete st.typingUsers sid
          ({ st with typingUsers := t' }, [.typingList (t'.map Prod.snd)])
  | .reactMessage sid mid reaction =>
      let res := reactRooms mid ⟨sid, reaction⟩ st.rooms
      ({ st with rooms := res.1 },
       match res.2 with
       | some r => [.messageReaction r mid reaction]
       | none => [])
  | .readMessage sid mid =>
      match jsGet st.users sid with
      | none => (st, [])
      | some u =>
          let res := readRooms mid u.username st.rooms
          ({ st with rooms := res.1 },
           res.2.map (fun p => .messageRead p.1 mid p.2))
  | .disconnect sid =>
      let io' := ioLeaveAll st.ioRooms sid
      match jsGet st.users sid with
      | none => ({ st with ioRooms := io' }, [])
      | some u =>
          let users' := jsDelete st.users sid
          let t' := jsDelete st.typingUsers sid
          ({ users := users', rooms := st.rooms, typingUsers := t',
             ioRooms := io' },
           [.userLeft u.username sid, .userList (users'.map Prod.snd),
            .typingList (t'.map Prod.snd)])

/-- The state after one event, discarding the emissions. -/
def stepState (clock : Nat) (st : ServerState) (e : Event) : ServerState :=
  (step clock st e).1

/-- The emissions of one event. -/
def stepEmits (clock : Nat) (st : ServerState) (e : Event) : List Emit :=
  (step clock st e).2

/-- Running a clocked event sequence from a state. -/
def runState (st : ServerState) : List (Nat × Event) → ServerState
  | [] => st
  | (c, e) :: rest => runState (stepState c st e) rest

/-- The log of a room, the empty log when the room does not exist. -/
def getLogD (st : ServerState) (r : String) : List Message :=
  (jsGet st.rooms r).getD []

/-- Modelled from the spec: the server-side pagination operation
getPageBefore of section 4.2 (the load_older_messages handler that
src/client/src/socket/socket.js calls is absent from
src/server/server.js). It returns up to pageSize messages with id
strictly below the cursor, the ones closest to the cursor, in log order. -/
def getPageBefore (log : List Message) (cursorId pageSize : Nat) :
    List Message :=
  let pre := log.filter (fun m => m.id < cursorId)
  pre.drop (pre.length - pageSize)

/-- Modelled from the spec: fetchOlderMessages of section 6, a page of the
named room's log per getPageBefore. -/
def fetchOlderMessages (st : ServerState) (room : String)
    (beforeMessageId pageSize : Nat) : List Message :=
  getPageBefore (getLogD st room) beforeMessageId pageSize

/-! Association-list and membership lemmas. -/

theorem jsGet_set_self {α : Type} (rs : List (String × α)) (k : String)
    (v : α) : jsGet (jsSet rs k v) k = some v := by
  induction rs with
  | nil => simp [jsSet, jsGet]
  | cons p rest ih =>
      obtain ⟨k₀, w⟩ := p
      by_cases h : k₀ = k
      · subst h
        simp [jsSet, jsGet]
      · simp [jsSet, jsGet, h, ih]

theorem jsGet_set_ne {α : Type} (rs : List (String × α)) (k k' : String)
    (v : α) (h : k' ≠ k) : jsGet (jsSet rs k v) k' = jsGet rs k' := by
  have h2 : ¬(k = k') := fun hh => h hh.symm
  induction rs with
  | nil => simp [jsSet, jsGet, h2]
  | cons p rest ih =>
      obtain ⟨k₀, w⟩ := p
      by_cases h0 : k₀ = k
      · subst h0
        simp [jsSet, jsGet, h2]
      · simp [jsSet, jsGet, h0, ih]

theorem jsGet_del_self {α : Type} (rs : List (String × α)) (k : String) :
    jsGet (jsDelete rs k) k = none := by
  induction rs with
  | nil => simp [jsDelete, jsGet]
  | cons p rest ih =>
      obtain ⟨k₀, w⟩ := p
      by_cases h0 : k₀ = k
      · simp [jsDelete, h0, ih]
      · simp [jsDelete, jsGet, h0, ih]

theorem jsGet_del_ne {α : Type} (rs : List (String × α)) (k k' : String)
    (h : k' ≠ k) : jsGet (jsDelete rs k) k' = jsGet rs k' := by
  have h2 : ¬(k = k') := fun hh => h hh.symm
  induction rs with
  | nil => simp [jsDelete]
  | cons p rest ih =>
      obtain ⟨k₀, w⟩ := p
      by_cases h0 : k₀ = k
      · subst h0
        simp [jsDelete, jsGet, h2, ih]
      · simp [jsDelete, jsGet, h0, ih]

theorem mem_ioJoin (ps : List (String × String)) (r sid r' s' : String) :
    (r', s') ∈ ioJoin ps r sid ↔ (r', s') ∈ ps ∨ (r' = r ∧ s' = sid) := by
  unfold ioJoin
  by_cases h : (r, sid) ∈ ps
  · simp only [h, if_true]
    constructor
    · exact fun hm => Or.inl hm
    · rintro (hm | ⟨rfl, rfl⟩)
      · exact hm
      · exact h
  · simp only [h, if_false, List.mem_append, List.mem_singleton,
      Prod.mk.injEq]

theorem mem_ioLeave (ps : List (String × String)) (r sid r' s' : String) :
    (r', s') ∈ ioLeave ps r sid ↔
      (r', s') ∈ ps ∧ ¬(r' = r ∧ s' = sid) := by
  simp [ioLeave, List.mem_filter]
  tauto

theorem mem_ioLeaveAll (ps : List (String × String)) (sid r' s' : String) :
    (r', s') ∈ ioLeaveAll ps sid ↔ (r', s') ∈ ps ∧ s' ≠ sid := by
  simp [ioLeaveAll, List.mem_filter]

/-! Log-mutation lemmas: reactions and read receipts keep the id sequence
of a log unchanged. -/

theorem reactLog_map_id (mid : Nat) (en : Reaction) (log : List Message) :
    (reactLog mid en log).map Message.id = log.map Message.id := by
  induction log with
  | nil => simp [reactLog]
  | cons m ms ih =>
      by_cases h : m.id = mid
      · simp [reactLog, h]
      · simp [reactLog, h, ih]

theorem readLog_map_id (mid : Nat) (name : String) (log : List Message) :
    (readLog mid name log).1.map Message.id = log.map Message.id := by
  induction log with
  | nil => simp [readLog]
  | cons m ms ih =>
      by_cases h : m.id = mid
      · by_cases h2 : name ∈ m.readers
        · simp [readLog, h, h2]
        · simp [readLog, h, h2]
      · simp [readLog, h, ih]

theorem jsGet_readRooms (mid : Nat) (name : String)
    (rs : List (String × List Message)) (r : String) :
    jsGet (readRooms mid name rs).1 r =
      (jsGet rs r).map (fun l => (readLog mid name l).1) := by
  induction rs with
  | nil => simp [readRooms, jsGet]
  | cons p rest ih =>
      obtain ⟨r₀, log⟩ := p
      by_cases h : r₀ = r
      · simp [readRooms, jsGet, h]
      · simp [readRooms, jsGet, h, ih]

theorem jsGet_reactRooms (mid : Nat) (en : Reaction)
    (rs : List (String × List Message)) (r : String) (log : List Message)
    (h : jsGet rs r = some log) :
    jsGet (reactRooms mid en rs).1 r = some log ∨
      jsGet (reactRooms mid en rs).1 r = some (reactLog mid en log) := by
  induction rs with
  | nil => simp [jsGet] at h
  | cons p rest ih =>
      obtain ⟨r₀, l₀⟩ := p
      by_cases hm : l₀.any (fun m => m.id == mid)
      · by_cases h0 : r₀ = r
        · subst h0
          simp [jsGet] at h
          subst h
          right
          simp [reactRooms, hm, jsGet]
        · left
          simp only [jsGet, if_neg h0] at h
          simp [reactRooms, hm, jsGet, h0, h]
      · by_cases h0 : r₀ = r
        · subst h0
          left
          simp [jsGet] at h
          subst h
          simp [reactRooms, hm, jsGet]
        · simp only [jsGet, if_neg h0] at h
          have hres := ih h
          simpa [reactRooms, hm, jsGet, h0] using hres

/-! The frame relation: a message already in a log keeps its core fields,
and its reactions and readers lists only ever grow. -/

/-- ys extends xs: xs is an initial segment of ys. -/
def grows {α : Type} (xs ys : List α) : Prop := ys.take xs.length = xs

theorem grows_refl {α : Type} (xs : List α) : grows xs xs := by
  simp [grows]

theorem grows_append {α : Type} (xs t : List α) : grows xs (xs ++ t) := by
  simp [grows]

theorem grows_trans {α : Type} {a b c : List α} (h1 : grows a b)
    (h2 : grows b c) : grows a c := by
  unfold grows at h1 h2 ⊢
  have h3 := congrArg List.length h1
  rw [List.length_take] at h3
  have hlen : a.length ≤ b.length := by omega
  calc c.take a.length = (c.take b.length).take a.length := by
        rw [List.take_take, Nat.min_eq_left hlen]
    _ = b.take a.length := by rw [h2]
    _ = a := h1

/-- The frame relation on one message: every immutable core field agrees
and the two append-only collections of the new message extend the old
ones. -/
def MsgFrame (m m' : Message) : Prop :=
  m'.id = m.id ∧ m'.room = m.room ∧ m'.isPrivate = m.isPrivate ∧
  m'.timestamp = m.timestamp ∧ m'.sender = m.sender ∧
  m'.senderId = m.senderId ∧ m'.message = m.message ∧
  m'.fileData = m.fileData ∧ m'.fileName = m.fileName ∧
  grows m.reactions m'.reactions ∧ grows m.readers m'.readers

theorem MsgFrame_refl (m : Message) : MsgFrame m m := by
  exact ⟨rfl, rfl, rfl, rfl, rfl, rfl, rfl, rfl, rfl,
    grows_refl _, grows_refl _⟩

theorem MsgFrame_trans {a b c : Message} (h1 : MsgFrame a b)
    (h2 : MsgFrame b c) : MsgFrame a c := by
  obtain ⟨a1, a2, a3, a4, a5, a6, a7, a8, a9, a10, a11⟩ := h1
  obtain ⟨b1, b2, b3, b4, b5, b6, b7, b8, b9, b10, b11⟩ := h2
  exact ⟨b1.trans a1, b2.trans a2, b3.trans a3, b4.trans a4, b5.trans a5,
    b6.trans a6, b7.trans a7, b8.trans a8, b9.trans a9,
    grows_trans a10 b10, grows_trans a11 b11⟩

/-- The frame relation on one room log: every message already present stays
at its position with MsgFrame, and the log may only gain messages at the
tail. -/
def LogFrame (old new : List Message) : Prop :=
  old.length ≤ new.length ∧
  ∀ i : Nat, ∀ h1 : i < old.length, ∀ h2 : i < new.length,
    MsgFrame (old.get ⟨i, h1⟩) (new.get ⟨i, h2⟩)

theorem LogFrame_refl (log : List Message) : LogFrame log log :=
  ⟨le_refl _, fun _ _ _ => MsgFrame_refl _⟩

theorem LogFrame_trans {a b c : List Message} (h1 : LogFrame a b)
    (h2 : LogFrame b c) : LogFrame a c := by
  refine ⟨h1.1.trans h2.1, fun i ha hc => ?_⟩
  have hb : i < b.length := lt_of_lt_of_le ha h1.1
  exact MsgFrame_trans (h1.2 i ha hb) (h2.2 i hb hc)

theorem LogFrame_append (log t : List Message) :
    LogFrame log (log ++ t) := by
  refine ⟨by simp, fun i h1 h2 => ?_⟩
  have : (log ++ t).get ⟨i, h2⟩ = log.get ⟨i, h1⟩ := by
    exact List.get_append i h1
  rw [this]
  exact MsgFrame_refl _

theorem LogFrame_cons {m m' : Message} {t t' : List Message}
    (hm : MsgFrame m m') (ht : LogFrame t t') :
    LogFrame (m :: t) (m' :: t') := by
  refine ⟨by simpa using Nat.succ_le_succ ht.1, fun i h1 h2 => ?_⟩
  cases i with
  | zero => simpa using hm
  | succ n =>
      simpa using ht.2 n (by simpa using h1) (by simpa using h2)

theorem reactLog_frame (mid : Nat) (en : Reaction) (log : List Message) :
    LogFrame log (reactLog mid en log) := by
  induction log with
  | nil => exact LogFrame_refl []
  | cons m ms ih =>
      by_cases h : m.id = mid
      · simp only [reactLog, if_pos h]
        exact LogFrame_cons
          ⟨rfl, rfl, rfl, rfl, rfl, rfl, rfl, rfl, rfl,
           grows_append _ _, grows_refl _⟩ (LogFrame_refl ms)
      · simp only [reactLog, if_neg h]
        exact LogFrame_cons (MsgFrame_refl m) ih

theorem readLog_frame (mid : Nat) (name : String) (log : List Message) :
    LogFrame log (readLog mid name log).1 := by
  induction log with
  | nil => exact LogFrame_refl []
  | cons m ms ih =>
      by_cases h : m.id = mid
      · by_cases h2 : name ∈ m.readers
        · simp only [readLog, if_pos h, if_pos h2]
          exact LogFrame_refl _
        · simp only [readLog, if_pos h, if_neg h2]
          exact LogFrame_cons
            ⟨rfl, rfl, rfl, rfl, rfl, rfl, rfl, rfl, rfl,
             grows_refl _, grows_append _ _⟩ (LogFrame_refl ms)
      · simp only [readLog, if_neg h]
        exact LogFrame_cons (MsgFrame_refl m) ih

/-- One handler step can only append to a room log or grow the reactions
and readers of messages already in it. -/
theorem step_frame (c : Nat) (st : ServerState) (e : Event) (r : String)
    (log : List Message) (h : jsGet st.rooms r = some log) :
    ∃ log', jsGet (stepState c st e).rooms r = some log' ∧
      LogFrame log log' := by
  cases e with
  | connect sid =>
      exact ⟨log, by simpa [stepState, step] using h, LogFrame_refl _⟩
  | userJoin sid username =>
      exact ⟨log, by simpa [stepState, step] using h, LogFrame_refl _⟩
  | joinRoom sid roomName =>
      cases hu : jsGet st.users sid with
      | none =>
          exact ⟨log, by simpa [stepState, step, hu] using h,
            LogFrame_refl _⟩
      | some u =>
          by_cases hr : (jsGet st.rooms roomName).isNone
          · have hne : r ≠ roomName := by
              intro hrr
              subst hrr
              rw [h] at hr
              simp at hr
            refine ⟨log, ?_, LogFrame_refl _⟩
            simp only [stepState, step, hu, hr, if_true]
            rw [jsGet_set_ne _ _ _ _ hne]
            exact h
          · refine ⟨log, ?_, LogFrame_refl _⟩
            simp only [stepState, step, hu, hr, if_false]
            exact h
  | sendMessage sid text =>
      cases hu : jsGet st.users sid with
      | none =>
          exact ⟨log, by simpa [stepState, step, hu] using h,
            LogFrame_refl _⟩
      | some u =>
          by_cases hr : u.room = r
          · subst hr
            refine ⟨log ++ [createMessage c u.username sid (some text)
              (some u.room) false none none], ?_, LogFrame_append _ _⟩
            simp [stepState, step, hu, jsGet_set_self, h]
          · refine ⟨log, ?_, LogFrame_refl _⟩
            have hne : r ≠ u.room := fun hh => hr hh.symm
            simp only [stepState, step, hu]
            rw [jsGet_set_ne _ _ _ _ hne]
            exact h
  | privateMessage sid dest text =>
      cases hu : jsGet st.users sid with
      | none =>
          exact ⟨log, by simpa [stepState, step, hu] using h,
            LogFrame_refl _⟩
      | some u =>
          exact ⟨log, by simpa [stepState, step, hu] using h,
            LogFrame_refl _⟩
  | sendFile sid fileName fileData =>
      cases hu : jsGet st.users sid with
      | none =>
          exact ⟨log, by simpa [stepState, step, hu] using h,
            LogFrame_refl _⟩
      | some u =>
          by_cases hr : u.room = r
          · subst hr
            refine ⟨log ++ [createMessage c u.username sid none
              (some u.room) false (some fileData) (some fileName)], ?_,
              LogFrame_append _ _⟩
            simp [stepState, step, hu, jsGet_set_self, h]
          · refine ⟨log, ?_, LogFrame_refl _⟩
            have hne : r ≠ u.room := fun hh => hr hh.symm
            simp only [stepState, step, hu]
            rw [jsGet_set_ne _ _ _ _ hne]
            exact h
  | typing sid isTyping =>
      cases hu : jsGet st.users sid with
      | none =>
          exact ⟨log, by simpa [stepState, step, hu] using h,
            LogFrame_refl _⟩
      | some u =>
          exact ⟨log, by simpa [stepState, step, hu] using h,
            LogFrame_refl _⟩
  | reactMessage sid mid reaction =>
      have hres := jsGet_reactRooms mid ⟨sid, reaction⟩ st.rooms r log h
      cases hres with
      | inl h1 =>
          exact ⟨log, by simpa [stepState, step] using h1, LogFrame_refl _⟩
      | inr h1 =>
          exact ⟨reactLog mid ⟨sid, reaction⟩ log,
            by simpa [stepState, step] using h1, reactLog_frame _ _ _⟩
  | readMessage sid mid =>
      cases hu : jsGet st.users sid with
      | none =>
          exact ⟨log, by simpa [stepState, step, hu] using h,
            LogFrame_refl _⟩
      | some u =>
          refine ⟨(readLog mid u.username log).1, ?_, readLog_frame _ _ _⟩
          simp only [stepState, step, hu]
          rw [jsGet_readRooms, h]
          rfl
  | disconnect sid =>
      cases hu : jsGet st.users sid with
      | none =>
          exact ⟨log, by simpa [stepState, step, hu] using h,
            LogFrame_refl _⟩
      | some u =>
          exact ⟨log, by simpa [stepState, step, hu] using h,
            LogFrame_refl _⟩

/-! Message-id bookkeeping: ids are assigned from the clock, so under a
non-decreasing clock every log is non-decreasing in id. -/

theorem jsGet_reactRooms_none (mid : Nat) (en : Reaction)
    (rs : List (String × List Message)) (r : String)
    (h : jsGet rs r = none) : jsGet (reactRooms mid en rs).1 r = none := by
  induction rs with
  | nil => simp [reactRooms, jsGet]
  | cons p rest ih =>
      obtain ⟨r₀, l₀⟩ := p
      by_cases h0 : r₀ = r
      · subst h0
        simp [jsGet] at h
      · simp only [jsGet, if_neg h0] at h
        by_cases hm : l₀.any (fun m => m.id == mid)
        · simp [reactRooms, hm, jsGet, h0, h]
        · simp [reactRooms, hm, jsGet, h0, ih h]

/-- How one step can change the log stored under a room key: leave it
empty at creation, keep its id sequence, or append one message whose id is
the current clock. -/
theorem step_rooms_shape (c : Nat) (st : ServerState) (e : Event)
    (r : String) (log' : List Message)
    (h' : jsGet (stepState c st e).rooms r = some log') :
    log' = [] ∨
    (∃ log, jsGet st.rooms r = some log ∧
      log'.map Message.id = log.map Message.id) ∨
    (∃ m : Message, m.id = c ∧
      log' = (jsGet st.rooms r).getD [] ++ [m]) := by
  cases e with
  | connect sid =>
      simp only [stepState, step] at h'
      exact Or.inr (Or.inl ⟨log', h', rfl⟩)
  | userJoin sid username =>
      simp only [stepState, step] at h'
      exact Or.inr (Or.inl ⟨log', h', rfl⟩)
  | joinRoom sid roomName =>
      cases hu : jsGet st.users sid with
      | none =>
          simp only [stepState, step, hu] at h'
          exact Or.inr (Or.inl ⟨log', h', rfl⟩)
      | some u =>
          by_cases hr : (jsGet st.rooms roomName).isNone
          · simp only [stepState, step, hu, hr, if_true] at h'
            by_cases h0 : r = roomName
            · subst h0
              rw [jsGet_set_self] at h'
              cases h'
              exact Or.inl rfl
            · rw [jsGet_set_ne _ _ _ _ h0] at h'
              exact Or.inr (Or.inl ⟨log', h', rfl⟩)
          · simp only [stepState, step, hu, hr, if_false] at h'
            exact Or.inr (Or.inl ⟨log', h', rfl⟩)
  | sendMessage sid text =>
      cases hu : jsGet st.users sid with
      | none =>
          simp only [stepState, step, hu] at h'
          exact Or.inr (Or.inl ⟨log', h', rfl⟩)
      | some u =>
          simp only [stepState, step, hu] at h'
          by_cases h0 : r = u.room
          · subst h0
            rw [jsGet_set_self] at h'
            cases h'
            exact Or.inr (Or.inr ⟨_, rfl, rfl⟩)
          · rw [jsGet_set_ne _ _ _ _ h0] at h'
            exact Or.inr (Or.inl ⟨log', h', rfl⟩)
  | privateMessage sid dest text =>
      cases hu : jsGet st.users sid with
      | none =>
          simp only [stepState, step, hu] at h'
          exact Or.inr (Or.inl ⟨log', h', rfl⟩)
      | some u =>
          simp only [stepState, step, hu] at h'
          exact Or.inr (Or.inl ⟨log', h', rfl⟩)
  | sendFile sid fileName fileData =>
      cases hu : jsGet st.users sid with
      | none =>
          simp only [stepState, step, hu] at h'
          exact Or.inr (Or.inl ⟨log', h', rfl⟩)
      | some u =>
          simp only [stepState, step, hu] at h'
          by_cases h0 : r = u.room
          · subst h0
            rw [jsGet_set_self] at h'
            cases h'
            exact Or.inr (Or.inr ⟨_, rfl, rfl⟩)
          · rw [jsGet_set_ne _ _ _ _ h0] at h'
            exact Or.inr (Or.inl ⟨log', h', rfl⟩)
  | typing sid isTyping =>
      cases hu : jsGet st.users sid with
      | none =>
          simp only [stepState, step, hu] at h'
          exact Or.inr (Or.inl ⟨log', h', rfl⟩)
      | some u =>
          simp only [stepState, step, hu] at h'
          exact Or.inr (Or.inl ⟨log', h', rfl⟩)
  | reactMessage sid mid reaction =>
      simp only [stepState, step] at h'
      cases hold : jsGet st.rooms r with
      | none =>
          rw [jsGet_reactRooms_none mid ⟨sid, reaction⟩ st.rooms r hold]
            at h'
          cases h'
      | some log =>
          cases jsGet_reactRooms mid ⟨sid, reaction⟩ st.rooms r log hold
            with
          | inl h1 =>
              rw [h1] at h'
              injection h' with h2
              subst h2
              exact Or.inr (Or.inl ⟨log, rfl, rfl⟩)
          | inr h1 =>
              rw [h1] at h'
              injection h' with h2
              subst h2
              exact Or.inr (Or.inl ⟨log, rfl, reactLog_map_id _ _ _⟩)
  | readMessage sid mid =>
      cases hu : jsGet st.users sid with
      | none =>
          simp only [stepState, step, hu] at h'
          exact Or.inr (Or.inl ⟨log', h', rfl⟩)
      | some u =>
          simp only [stepState, step, hu] at h'
          rw [jsGet_readRooms] at h'
          cases hold : jsGet st.rooms r with
          | none => rw [hold] at h'; cases h'
          | some log =>
              rw [hold] at h'
              simp only [Option.map_some'] at h'
              injection h' with h2
              subst h2
              exact Or.inr (Or.inl ⟨log, rfl, readLog_map_id _ _ _⟩)
  | disconnect sid =>
      cases hu : jsGet st.users sid with
      | none =>
          simp only [stepState, step, hu] at h'
          exact Or.inr (Or.inl ⟨log', h', rfl⟩)
      | some u =>
          simp only [stepState, step, hu] at h'
          exact Or.inr (Or.inl ⟨log', h', rfl⟩)

/-- All room logs have non-decreasing id sequences and every id is at most
the latest clock value. -/
def IdBound (st : ServerState) (c : Nat) : Prop :=
  ∀ r log, jsGet st.rooms r = some log →
    (log.map Message.id).Pairwise (· ≤ ·) ∧
    ∀ i ∈ log.map Message.id, i ≤ c

theorem step_idBound (c c' : Nat) (st : ServerState) (e : Event)
    (hc : c ≤ c') (h : IdBound st c) :
    IdBound (stepState c' st e) c' := by
  intro r log' h'
  rcases step_rooms_shape c' st e r log' h' with
    h0 | ⟨log, hl, hmap⟩ | ⟨m, hm, heq⟩
  · subst h0
    simp
  · rw [hmap]
    obtain ⟨hp, hb⟩ := h r log hl
    exact ⟨hp, fun i hi => (hb i hi).trans hc⟩
  · subst heq
    cases hold : jsGet st.rooms r with
    | none =>
        simp [hm]
    | some log =>
        obtain ⟨hp, hb⟩ := h r log hold
        constructor
        · simp only [Option.getD_some, List.map_append, List.map_cons,
            List.map_nil]
          rw [List.pairwise_append]
          refine ⟨hp, List.pairwise_singleton _ _, ?_⟩
          intro a ha b hb'
          simp only [List.mem_singleton] at hb'
          subst hb'
          rw [hm]
          exact (hb a ha).trans hc
        · intro i hi
          simp only [Option.getD_some, List.map_append, List.map_cons,
            List.map_nil, List.mem_append, List.mem_singleton] at hi
          cases hi with
          | inl hi => exact (hb i hi).trans hc
          | inr hi =>
              subst hi
              rw [hm]

theorem run_idBound (evs : List (Nat × Event)) (st : ServerState) (c : Nat)
    (h : IdBound st c)
    (hc : List.Chain' (· ≤ ·) (c :: evs.map Prod.fst)) :
    ∃ c', IdBound (runState st evs) c' := by
  induction evs generalizing st c with
  | nil => exact ⟨c, h⟩
  | cons p rest ih =>
      obtain ⟨c₁, e⟩ := p
      rw [List.map_cons] at hc
      rw [List.chain'_cons] at hc
      obtain ⟨hle, h2⟩ := hc
      exact ih (stepState c₁ st e) c₁ (step_idBound c c₁ st e hle h) h2

/-! Membership consistency: socket.io room membership versus the room
recorded in the users registry. -/

/-- Membership consistency: a socket is a member of room r exactly when
the users registry holds a session for it whose current room is r. -/
def Consistent (st : ServerState) : Prop :=
  ∀ r sid, (r, sid) ∈ st.ioRooms ↔
    ∃ u, jsGet st.users sid = some u ∧ u.room = r

/-- Every registered session records a nonempty room name. -/
def RoomsNonempty (st : ServerState) : Prop :=
  ∀ sid u, jsGet st.users sid = some u → u.room ≠ ""

/-- Recognises the clocked event sequences made only of the three session
lifecycle events, in which user_join is only issued by a connection with
no registered session and join_room always names a nonempty room. -/
def wfJSD : ServerState → List (Nat × Event) → Bool
  | _, [] => true
  | st, (c, e) :: rest =>
      (match e with
       | .userJoin sid _ => (jsGet st.users sid).isNone
       | .joinRoom _ roomName => roomName != ""
       | .disconnect _ => true
       | _ => false) && wfJSD (stepState c st e) rest

theorem consistent_userJoin (c : Nat) (st : ServerState)
    (sid username : String) (hu : jsGet st.users sid = none)
    (hc : Consistent st) (hn : RoomsNonempty st) :
    Consistent (stepState c st (.userJoin sid username)) ∧
    RoomsNonempty (stepState c st (.userJoin sid username)) := by
  constructor
  · intro r s
    simp only [stepState, step, mem_ioJoin]
    by_cases hs : s = sid
    · subst hs
      have hnm : ¬((r, s) ∈ st.ioRooms) := by
        intro hm
        obtain ⟨u, hu2, _⟩ := (hc r s).mp hm
        rw [hu] at hu2
        cases hu2
      rw [jsGet_set_self]
      simp only [hnm, false_or, and_true, Option.some.injEq]
      constructor
      · rintro rfl
        exact ⟨⟨username, s, "global"⟩, rfl, rfl⟩
      · rintro ⟨u, hu2, hr⟩
        subst hu2
        exact hr.symm
    · rw [jsGet_set_ne _ _ _ _ hs]
      simp only [hs, and_false, or_false]
      exact hc r s
  · intro s u hu2
    simp only [stepState, step] at hu2
    by_cases hs : s = sid
    · subst hs
      rw [jsGet_set_self] at hu2
      injection hu2 with h2
      subst h2
      simp
    · rw [jsGet_set_ne _ _ _ _ hs] at hu2
      exact hn s u hu2

theorem consistent_joinRoom (c : Nat) (st : ServerState)
    (sid roomName : String) (hr : roomName ≠ "")
    (hc : Consistent st) (hn : RoomsNonempty st) :
    Consistent (stepState c st (.joinRoom sid roomName)) ∧
    RoomsNonempty (stepState c st (.joinRoom sid roomName)) := by
  cases hu : jsGet st.users sid with
  | none =>
      simp only [stepState, step, hu]
      exact ⟨hc, hn⟩
  | some u =>
      have hur : u.room ≠ "" := hn sid u hu
      constructor
      · intro r s
        simp only [stepState, step, hu, if_pos hur, mem_ioJoin, mem_ioLeave]
        by_cases hs : s = sid
        · subst hs
          rw [jsGet_set_self]
          constructor
          · rintro (⟨hm, hne⟩ | ⟨rfl, _⟩)
            · exfalso
              obtain ⟨v, hv, hvr⟩ := (hc r s).mp hm
              rw [hu] at hv
              injection hv with hv2
              subst hv2
              exact hne ⟨hvr.symm, rfl⟩
            · exact ⟨_, rfl, rfl⟩
          · rintro ⟨v, hv, hvr⟩
            injection hv with hv2
            subst hv2
            right
            exact ⟨hvr.symm, rfl⟩
        · rw [jsGet_set_ne _ _ _ _ hs]
          rw [hc r s]
          constructor
          · rintro (⟨hm, _⟩ | ⟨_, hss⟩)
            · exact hm
            · exact absurd hss hs
          · intro hm
            left
            exact ⟨hm, fun hcon => hs hcon.2⟩
      · intro s v hv
        simp only [stepState, step, hu] at hv
        by_cases hs : s = sid
        · subst hs
          rw [jsGet_set_self] at hv
          injection hv with h2
          subst h2
          exact hr
        · rw [jsGet_set_ne _ _ _ _ hs] at hv
          exact hn s v hv

theorem consistent_disconnect (c : Nat) (st : ServerState) (sid : String)
    (hc : Consistent st) (hn : RoomsNonempty st) :
    Consistent (stepState c st (.disconnect sid)) ∧
    RoomsNonempty (stepState c st (.disconnect sid)) := by
  cases hu : jsGet st.users sid with
  | none =>
      constructor
      · intro r s
        simp only [stepState, step, hu, mem_ioLeaveAll]
        by_cases hs : s = sid
        · subst hs
          simp only [ne_eq, not_true_eq_false, and_false, false_iff]
          rintro ⟨u, hu2, _⟩
          rw [hu] at hu2
          cases hu2
        · simp only [hs, ne_eq, not_false_eq_true, and_true]
          exact hc r s
      · intro s v hv
        simp only [stepState, step, hu] at hv
        exact hn s v hv
  | some u =>
      constructor
      · intro r s
        simp only [stepState, step, hu, mem_ioLeaveAll]
        by_cases hs : s = sid
        · subst hs
          rw [jsGet_del_self]
          simp
        · rw [jsGet_del_ne _ _ _ hs]
          simp only [hs, ne_eq, not_false_eq_true, and_true]
          exact hc r s
      · intro s v hv
        simp only [stepState, step, hu] at hv
        by_cases hs : s = sid
        · subst hs
          rw [jsGet_del_self] at hv
          cases hv
        · rw [jsGet_del_ne _ _ _ hs] at hv
          exact hn s v hv

theorem wf_run_inv (evs : List (Nat × Event)) (st : ServerState)
    (hc : Consistent st) (hn : RoomsNonempty st)
    (hwf : wfJSD st evs = true) :
    Consistent (runState st evs) ∧ RoomsNonempty (runState st evs) := by
  induction evs generalizing st with
  | nil => exact ⟨hc, hn⟩
  | cons p rest ih =>
      obtain ⟨c, e⟩ := p
      rw [runState]
      cases e with
      | userJoin sid username =>
          simp only [wfJSD, Bool.and_eq_true,
            Option.isNone_iff_eq_none] at hwf
          obtain ⟨h1, h2⟩ := hwf
          obtain ⟨hc', hn'⟩ := consistent_userJoin c st sid username h1 hc hn
          exact ih (stepState c st (.userJoin sid username)) hc' hn' h2
      | joinRoom sid roomName =>
          simp only [wfJSD, Bool.and_eq_true, bne_iff_ne] at hwf
          obtain ⟨h1, h2⟩ := hwf
          obtain ⟨hc', hn'⟩ := consistent_joinRoom c st sid roomName h1 hc hn
          exact ih (stepState c st (.joinRoom sid roomName)) hc' hn' h2
      | disconnect sid =>
          simp only [wfJSD, Bool.true_and] at hwf
          obtain ⟨hc', hn'⟩ := consistent_disconnect c st sid hc hn
          exact ih (stepState c st (.disconnect sid)) hc' hn' hwf
      | connect sid => simp [wfJSD] at hwf
      | sendMessage sid text => simp [wfJSD] at hwf
      | privateMessage sid dest text => simp [wfJSD] at hwf
      | sendFile sid fileName fileData => simp [wfJSD] at hwf
      | typing sid isTyping => simp [wfJSD] at hwf
      | reactMessage sid mid reaction => simp [wfJSD] at hwf
      | readMessage sid mid => simp [wfJSD] at hwf

/-! Presence Tracker bookkeeping: only registered sessions are ever marked
as typing, so disconnect can fully clear a session. -/

/-- Every socket with a typing entry has a registered session. -/
def TypingSub (st : ServerState) : Prop :=
  ∀ sid, (jsGet st.typingUsers sid).isSome →
    (jsGet st.users sid).isSome

theorem step_typingSub (c : Nat) (st : ServerState) (e : Event)
    (h : TypingSub st) : TypingSub (stepState c st e) := by
  cases e with
  | connect sid =>
      intro s hs
      simp only [stepState, step] at hs ⊢
      exact h s hs
  | userJoin sid username =>
      intro s hs
      simp only [stepState, step] at hs ⊢
      by_cases h0 : s = sid
      · subst h0
        rw [jsGet_set_self]
        rfl
      · rw [jsGet_set_ne _ _ _ _ h0]
        exact h s hs
  | joinRoom sid roomName =>
      intro s hs
      cases hu : jsGet st.users sid with
      | none =>
          simp only [stepState, step, hu] at hs ⊢
          exact h s hs
      | some u =>
          simp only [stepState, step, hu] at hs ⊢
          by_cases h0 : s = sid
          · subst h0
            rw [jsGet_set_self]
            rfl
          · rw [jsGet_set_ne _ _ _ _ h0]
            exact h s hs
  | sendMessage sid text =>
      intro s hs
      cases hu : jsGet st.users sid with
      | none =>
          simp only [stepState, step, hu] at hs ⊢
          exact h s hs
      | some u =>
          simp only [stepState, step, hu] at hs ⊢
          exact h s hs
  | privateMessage sid dest text =>
      intro s hs
      cases hu : jsGet st.users sid with
      | none =>
          simp only [stepState, step, hu] at hs ⊢
          exact h s hs
      | some u =>
          simp only [stepState, step, hu] at hs ⊢
          exact h s hs
  | sendFile sid fileName fileData =>
      intro s hs
      cases hu : jsGet st.users sid with
      | none =>
          simp only [stepState, step, hu] at hs ⊢
          exact h s hs
      | some u =>
          simp only [stepState, step, hu] at hs ⊢
          exact h s hs
  | typing sid isTyping =>
      intro s hs
      cases hu : jsGet st.users sid with
      | none =>
          simp only [stepState, step, hu] at hs ⊢
          exact h s hs
      | some u =>
          simp only [stepState, step, hu] at hs ⊢
          cases isTyping with
          | true =>
              rw [if_pos rfl] at hs
              by_cases h0 : s = sid
              · subst h0
                rw [hu]
                rfl
              · rw [jsGet_set_ne _ _ _ _ h0] at hs
                exact h s hs
          | false =>
              rw [if_neg Bool.false_ne_true] at hs
              by_cases h0 : s = sid
              · subst h0
                rw [jsGet_del_self] at hs
                cases hs
              · rw [jsGet_del_ne _ _ _ h0] at hs
                exact h s hs
  | reactMessage sid mid reaction =>
      intro s hs
      simp only [stepState, step] at hs ⊢
      exact h s hs
  | readMessage sid mid =>
      intro s hs
      cases hu : jsGet st.users sid with
      | none =>
          simp only [stepState, step, hu] at hs ⊢
          exact h s hs
      | some u =>
          simp only [stepState, step, hu] at hs ⊢
          exact h s hs
  | disconnect sid =>
      intro s hs
      cases hu : jsGet st.users sid with
      | none =>
          simp only [stepState, step, hu] at hs ⊢
          exact h s hs
      | some u =>
          simp only [stepState, step, hu] at hs ⊢
          by_cases h0 : s = sid
          · subst h0
            rw [jsGet_del_self] at hs
            cases hs
          · rw [jsGet_del_ne _ _ _ h0] at hs
            rw [jsGet_del_ne _ _ _ h0]
            exact h s hs

theorem run_typingSub (evs : List (Nat × Event)) (st : ServerState)
    (h : TypingSub st) : TypingSub (runState st evs) := by
  induction evs generalizing st with
  | nil => exact h
  | cons p rest ih =>
      obtain ⟨c, e⟩ := p
      rw [runState]
      exact ih (stepState c st e) (step_typingSub c st e h)

/-! Read-receipt lemmas: idempotence and the first-match behaviour of the
read_message loop. -/

theorem readLog_idem (mid : Nat) (name : String) (log : List Message) :
    readLog mid name (readLog mid name log).1 =
      ((readLog mid name log).1, none) := by
  induction log with
  | nil => simp [readLog]
  | cons m ms ih =>
      by_cases h : m.id = mid
      · by_cases h2 : name ∈ m.readers
        · simp [readLog, h, h2]
        · simp only [readLog, if_pos h, if_neg h2]
          have hmem : name ∈ m.readers ++ [name] := by simp
          simp [readLog, h, hmem]
      · simp only [readLog, if_neg h]
        simp [readLog, h, ih]

theorem readRooms_idem (mid : Nat) (name : String)
    (rs : List (String × List Message)) :
    readRooms mid name (readRooms mid name rs).1 =
      ((readRooms mid name rs).1, []) := by
  induction rs with
  | nil => simp [readRooms]
  | cons p rest ih =>
      obtain ⟨r, log⟩ := p
      simp [readRooms, readLog_idem, ih]

theorem readRooms_fst_map (mid : Nat) (name : String)
    (rs : List (String × List Message)) :
    (readRooms mid name rs).1 =
      rs.map (fun p => (p.1, (readLog mid name p.2).1)) := by
  induction rs with
  | nil => simp [readRooms]
  | cons p rest ih =>
      obtain ⟨r, log⟩ := p
      simp [readRooms, ih]

theorem readRooms_snd_filterMap (mid : Nat) (name : String)
    (rs : List (String × List Message)) :
    (readRooms mid name rs).2 =
      rs.filterMap (fun p =>
        ((readLog mid name p.2).2).map (fun l => (p.1, l))) := by
  induction rs with
  | nil => simp [readRooms]
  | cons p rest ih =>
      obtain ⟨r, log⟩ := p
      cases hh : (readLog mid name log).2 with
      | none => simp [readRooms, hh, ih, List.filterMap_cons]
      | some l => simp [readRooms, hh, ih, List.filterMap_cons]

theorem readLog_first_match (mid : Nat) (name : String)
    (pre : List Message) (m : Message) (post : List Message)
    (hpre : ∀ m' ∈ pre, m'.id ≠ mid) (hm : m.id = mid)
    (hname : name ∉ m.readers) :
    readLog mid name (pre ++ m :: post) =
      (pre ++ { m with readers := m.readers ++ [name] } :: post,
       some (m.readers ++ [name])) := by
  induction pre with
  | nil => simp [readLog, hm, hname]
  | cons q qs ih =>
      have hq : q.id ≠ mid := hpre q (List.mem_cons_self q qs)
      have ih2 := ih (fun m' hm' => hpre m' (List.mem_cons_of_mem q hm'))
      simp [readLog, hq, ih2]

/-! Concrete scenario states used by witnesses and counterexamples. -/

/-- Two sockets connect, one registers: the other is a connected private
recipient. -/
def stAB : ServerState :=
  runState initialState
    [(0, .connect "b"), (1, .connect "a"), (2, .userJoin "a" "alice")]

/-- One registered user sends two messages during the same clock
millisecond, so the two logged messages share the id 100. -/
def stDup : ServerState :=
  runState initialState
    [(0, .connect "a"), (1, .userJoin "a" "alice"),
     (100, .sendMessage "a" "one"), (100, .sendMessage "a" "two")]

/-- The log of room global in stDup. -/
def stDupLog : List Message := getLogD stDup "global"

/-! Claim C1. -/

/-- Claim C1 counterexample: after the event sequence user_join a,
join_room a tech, user_join a (a sequence of join, switchRoom and
disconnect events), socket a is still a member of room tech and also a
member of room global, while its registered currentRoom is global — so a
room's member set differs from the set of sessions whose currentRoom is
that room, and one session sits in two member sets at once. -/
theorem C1_counterexample :
    ("tech", "a") ∈ (runState initialState
      [(0, .userJoin "a" "alice"), (1, .joinRoom "a" "tech"),
       (2, .userJoin "a" "alice")]).ioRooms ∧
    ("global", "a") ∈ (runState initialState
      [(0, .userJoin "a" "alice"), (1, .joinRoom "a" "tech"),
       (2, .userJoin "a" "alice")]).ioRooms ∧
    jsGet (runState initialState
      [(0, .userJoin "a" "alice"), (1, .joinRoom "a" "tech"),
       (2, .userJoin "a" "alice")]).users "a" =
      some ⟨"alice", "a", "global"⟩ := by
  decide

/-- Claim C1 (amended): for every sequence of join, switchRoom and
disconnect events in which a join is only issued by a connection with no
registered session and every switch names a nonempty room, each room's
member set equals exactly the set of sessions whose currentRoom is that
room, and every session appears in at most one room's member set at a
time; a room switch removes the session from the old room's membership and
adds it to the new one, which the invariant before and after the switch
expresses. -/
theorem C1_membership_consistency (evs : List (Nat × Event))
    (hwf : wfJSD initialState evs = true) :
    Consistent (runState initialState evs) ∧
    (∀ sid r₁ r₂, (r₁, sid) ∈ (runState initialState evs).ioRooms →
      (r₂, sid) ∈ (runState initialState evs).ioRooms → r₁ = r₂) := by
  have hinitc : Consistent initialState := by
    intro r sid
    simp [initialState, jsGet]
  have hinitn : RoomsNonempty initialState := by
    intro sid u hu
    simp [initialState, jsGet] at hu
  obtain ⟨hc, _⟩ := wf_run_inv evs initialState hinitc hinitn hwf
  refine ⟨hc, fun sid r₁ r₂ h1 h2 => ?_⟩
  obtain ⟨u1, hu1, hr1⟩ := (hc r₁ sid).mp h1
  obtain ⟨u2, hu2, hr2⟩ := (hc r₂ sid).mp h2
  rw [hu1] at hu2
  injection hu2 with h3
  subst h3
  rw [← hr1, ← hr2]

/-- Witness for C1: a concrete well-formed join, switch, disconnect
sequence satisfies the hypothesis and hence the invariant. -/
theorem C1_membership_consistency_witness :
    wfJSD initialState [(0, .userJoin "a" "alice"),
      (1, .joinRoom "a" "tech"), (2, .disconnect "a")] = true ∧
    (Consistent (runState initialState [(0, .userJoin "a" "alice"),
      (1, .joinRoom "a" "tech"), (2, .disconnect "a")]) ∧
    (∀ sid r₁ r₂, (r₁, sid) ∈ (runState initialState
        [(0, .userJoin "a" "alice"), (1, .joinRoom "a" "tech"),
         (2, .disconnect "a")]).ioRooms →
      (r₂, sid) ∈ (runState initialState
        [(0, .userJoin "a" "alice"), (1, .joinRoom "a" "tech"),
         (2, .disconnect "a")]).ioRooms → r₁ = r₂)) :=
  ⟨by decide, C1_membership_consistency _ (by decide)⟩

/-! Claim C2. -/

/-- Claim C2: a private message from a registered sender to a connected
recipient (whose personal socket.io room holds exactly that socket and who
differs from the sender) is delivered to exactly the two sockets recipient
and sender, the state is unchanged, and no room log gains the message — so
it can never appear in a full-log read or pagination result. -/
theorem C2_private_delivery (c : Nat) (st : ServerState)
    (sid dest text : String) (u : UserRec)
    (hu : jsGet st.users sid = some u)
    (hdest : ioMembers st.ioRooms dest = [dest])
    (hne : dest ≠ sid) :
    step c st (.privateMessage sid dest text) =
      (st, [.privateMsg [dest, sid]
        (createMessage c u.username sid (some text) none true none none)]) ∧
    ∀ r, getLogD (stepState c st (.privateMessage sid dest text)) r =
      getLogD st r := by
  constructor
  · simp only [step, hu]
    rw [hdest]
    have hb : (dest != sid) = true := bne_iff_ne.mpr hne
    simp [List.filter, hb]
  · intro r
    simp [stepState, step, hu]

/-- Witness for C2: in the concrete state stAB, alice sends a private
message to the connected socket b. -/
theorem C2_private_delivery_witness :
    jsGet stAB.users "a" = some ⟨"alice", "a", "global"⟩ ∧
    ioMembers stAB.ioRooms "b" = ["b"] ∧
    ("b" : String) ≠ "a" ∧
    (step 9 stAB (.privateMessage "a" "b" "yo") =
      (stAB, [.privateMsg ["b", "a"]
        (createMessage 9 "alice" "a" (some "yo") none true none none)]) ∧
    ∀ r, getLogD (stepState 9 stAB (.privateMessage "a" "b" "yo")) r =
      getLogD stAB r) :=
  ⟨by decide, by decide, by decide,
   C2_private_delivery 9 stAB "a" "b" "yo" ⟨"alice", "a", "global"⟩
     (by decide) (by decide) (by decide)⟩

/-! Claim C3. -/

/-- Claim C3 (spec-modelled): for every room, cursor and page size,
fetchOlderMessages returns at most pageSize messages, every returned
message has id strictly below the cursor, the page is in ascending id
order whenever the room log is, and a short page (fewer than pageSize
messages, possibly zero) means the whole older prefix was returned — the
terminal condition of pagination, an ordinary value rather than an
error. -/
theorem C3_pagination (st : ServerState) (room : String)
    (cursorId pageSize : Nat)
    (hsorted : ((getLogD st room).map Message.id).Pairwise (· ≤ ·)) :
    (fetchOlderMessages st room cursorId pageSize).length ≤ pageSize ∧
    (∀ m ∈ fetchOlderMessages st room cursorId pageSize,
      m.id < cursorId) ∧
    ((fetchOlderMessages st room cursorId pageSize).map
      Message.id).Pairwise (· ≤ ·) ∧
    ((fetchOlderMessages st room cursorId pageSize).length < pageSize →
      fetchOlderMessages st room cursorId pageSize =
        (getLogD st room).filter (fun m => m.id < cursorId)) := by
  refine ⟨?_, ?_, ?_, ?_⟩
  · simp only [fetchOlderMessages, getPageBefore, List.length_drop]
    omega
  · intro m hm
    simp only [fetchOlderMessages, getPageBefore] at hm
    have hm2 := List.mem_of_mem_drop hm
    rw [List.mem_filter] at hm2
    exact of_decide_eq_true hm2.2
  · have hsub : List.Sublist (fetchOlderMessages st room cursorId pageSize)
        (getLogD st room) := by
      simp only [fetchOlderMessages, getPageBefore]
      exact (List.drop_sublist _ _).trans (List.filter_sublist _)
    exact List.Pairwise.sublist (hsub.map Message.id) hsorted
  · intro hlt
    simp only [fetchOlderMessages, getPageBefore, List.length_drop]
      at hlt ⊢
    have hz : ((getLogD st room).filter
        (fun m => decide (m.id < cursorId))).length - pageSize = 0 := by
      omega
    rw [hz, List.drop_zero]

/-- Witness for C3: one page of size 1 before cursor 150 over the global
log of stDup. -/
theorem C3_pagination_witness :
    ((getLogD stDup "global").map Message.id).Pairwise (· ≤ ·) ∧
    ((fetchOlderMessages stDup "global" 150 1).length ≤ 1 ∧
    (∀ m ∈ fetchOlderMessages stDup "global" 150 1, m.id < 150) ∧
    ((fetchOlderMessages stDup "global" 150 1).map
      Message.id).Pairwise (· ≤ ·) ∧
    ((fetchOlderMessages stDup "global" 150 1).length < 1 →
      fetchOlderMessages stDup "global" 150 1 =
        (getLogD stDup "global").filter (fun m => m.id < 150))) :=
  ⟨by decide, C3_pagination stDup "global" 150 1 (by decide)⟩

/-! Claim C4. -/

/-- Claim C4 counterexample: a react_message from the unregistered socket
z is not ignored — it mutates a room log, appending a reaction that
records z as userId (the handler has no session guard). -/
theorem C4_counterexample :
    jsGet stDup.users "z" = none ∧
    stepState 7 stDup (.reactMessage "z" 100 "x") ≠ stDup ∧
    (jsGet (stepState 7 stDup (.reactMessage "z" 100 "x")).rooms
      "global").map (fun l => l.map Message.reactions) =
      some [[⟨"z", "x"⟩], []] := by
  decide

/-- Claim C4 (amended): a room switch, room message send, private message
send, file send, typing toggle or read receipt from a connection with no
registered session is silently ignored — the state is unchanged and
nothing is emitted. The reaction operation is the exception: react_message
has no session guard, so it still locates the message and mutates it. -/
theorem C4_unknown_session_ignored (c : Nat) (st : ServerState)
    (sid roomName text dest fn fd : String) (b : Bool) (mid : Nat)
    (hu : jsGet st.users sid = none) :
    step c st (.joinRoom sid roomName) = (st, []) ∧
    step c st (.sendMessage sid text) = (st, []) ∧
    step c st (.privateMessage sid dest text) = (st, []) ∧
    step c st (.sendFile sid fn fd) = (st, []) ∧
    step c st (.typing sid b) = (st, []) ∧
    step c st (.readMessage sid mid) = (st, []) :=
  ⟨by simp [step, hu], by simp [step, hu], by simp [step, hu],
   by simp [step, hu], by simp [step, hu], by simp [step, hu]⟩

/-- Witness for C4: the unregistered socket z acts on stDup and every
guarded operation is a no-op. -/
theorem C4_unknown_session_ignored_witness :
    jsGet stDup.users "z" = none ∧
    (step 7 stDup (.joinRoom "z" "tech") = (stDup, []) ∧
    step 7 stDup (.sendMessage "z" "hi") = (stDup, []) ∧
    step 7 stDup (.privateMessage "z" "a" "hi") = (stDup, []) ∧
    step 7 stDup (.sendFile "z" "f.png" "data") = (stDup, []) ∧
    step 7 stDup (.typing "z" true) = (stDup, []) ∧
    step 7 stDup (.readMessage "z" 100) = (stDup, [])) :=
  ⟨by decide, C4_unknown_session_ignored 7 stDup "z" "tech" "hi" "a"
    "f.png" "data" true 100 (by decide)⟩

/-! Claim C5. -/

/-- Claim C5 counterexample: two distinct messages created during the same
clock millisecond receive the same id 100 (ids come from Date.now), so
ids of distinct messages are not pairwise distinct. -/
theorem C5_counterexample :
    (jsGet stDup.rooms "global").map
      (fun l => l.map (fun m => (m.message, m.id))) =
      some [("one", 100), ("two", 100)] := by
  decide

/-- Claim C5 (amended): when the clock readings of an event sequence are
non-decreasing, every room log has a non-decreasing id sequence — so log
(append) order equals id order in the non-strict sense; ids need not be
pairwise distinct because two messages created in the same millisecond
share an id. -/
theorem C5_id_monotone (evs : List (Nat × Event))
    (hmono : List.Chain' (· ≤ ·) (evs.map Prod.fst)) :
    ∀ r log, jsGet (runState initialState evs).rooms r = some log →
      (log.map Message.id).Pairwise (· ≤ ·) := by
  have h0 : IdBound initialState 0 := by
    intro r log h
    simp [initialState, jsGet] at h
  have hchain : List.Chain' (· ≤ ·) (0 :: evs.map Prod.fst) := by
    cases hev : evs.map Prod.fst with
    | nil => simp
    | cons x xs =>
        rw [List.chain'_cons]
        rw [hev] at hmono
        exact ⟨Nat.zero_le x, hmono⟩
  obtain ⟨cend, hend⟩ := run_idBound evs initialState 0 h0 hchain
  intro r log h
  exact (hend r log h).1

/-- Witness for C5: a concrete non-decreasing clocked run yields logs with
non-decreasing ids. -/
theorem C5_id_monotone_witness :
    List.Chain' (· ≤ ·) (([(1, Event.userJoin "a" "alice"),
      (2, Event.sendMessage "a" "hi"),
      (3, Event.sendMessage "a" "yo")]).map Prod.fst) ∧
    ∀ r log, jsGet (runState initialState
      [(1, Event.userJoin "a" "alice"), (2, Event.sendMessage "a" "hi"),
       (3, Event.sendMessage "a" "yo")]).rooms r = some log →
      (log.map Message.id).Pairwise (· ≤ ·) :=
  ⟨by simp [List.chain'_cons], C5_id_monotone _ (by simp [List.chain'_cons])⟩

/-! Claim C6. -/

/-- Claim C6: a message already appended to a room log keeps its id, room,
isPrivate, timestamp, sender, senderId, content, fileData and fileName
unchanged through every later event sequence; its reactions and readers
lists only grow (the old lists stay as initial segments), and the log
itself only gains messages. -/
theorem C6_message_immutable_core (evs : List (Nat × Event))
    (st : ServerState) (r : String) (log : List Message)
    (h : jsGet st.rooms r = some log) :
    ∃ log', jsGet (runState st evs).rooms r = some log' ∧
      LogFrame log log' := by
  induction evs generalizing st log with
  | nil => exact ⟨log, h, LogFrame_refl _⟩
  | cons p rest ih =>
      obtain ⟨c, e⟩ := p
      obtain ⟨log1, h1, f1⟩ := step_frame c st e r log h
      obtain ⟨log2, h2, f2⟩ := ih (stepState c st e) log1 h1
      rw [runState]
      exact ⟨log2, h2, LogFrame_trans f1 f2⟩

/-- Witness for C6: the two logged messages of stDup survive a reaction
and a read receipt with their core fields intact. -/
theorem C6_message_immutable_core_witness :
    jsGet stDup.rooms "global" = some stDupLog ∧
    ∃ log', jsGet (runState stDup
      [(200, Event.reactMessage "a" 100 "like"),
       (201, Event.readMessage "a" 100)]).rooms "global" = some log' ∧
      LogFrame stDupLog log' :=
  ⟨by decide,
   C6_message_immutable_core
     [(200, Event.reactMessage "a" 100 "like"),
      (201, Event.readMessage "a" 100)] stDup "global" stDupLog
     (by decide)⟩

/-! Claim C7. -/

/-- Claim C7: the read_message handler is idempotent — processing the same
read receipt a second time from the same connection leaves the state
exactly as after the first call (every readers list unchanged in size and
content) and emits nothing; in particular it is a no-op whenever the
reader is already recorded. -/
theorem C7_markRead_idempotent (c c' : Nat) (st : ServerState)
    (sid : String) (mid : Nat) :
    step c' (stepState c st (.readMessage sid mid)) (.readMessage sid mid) =
      (stepState c st (.readMessage sid mid), []) := by
  cases hu : jsGet st.users sid with
  | none => simp [stepState, step, hu]
  | some u =>
      simp only [stepState, step, hu]
      rw [readRooms_idem]
      simp

/-! Claim C8. -/

/-- Claim C8: after a disconnect is processed in any reachable state, the
disconnected socket is a member of no socket.io room, absent from the
users registry, and absent from the typing set — even if it was marked as
typing at that moment. -/
theorem C8_disconnect_retracts (evs : List (Nat × Event)) (c : Nat)
    (sid : String) :
    (∀ r, (r, sid) ∉ (stepState c (runState initialState evs)
      (.disconnect sid)).ioRooms) ∧
    jsGet (stepState c (runState initialState evs)
      (.disconnect sid)).users sid = none ∧
    jsGet (stepState c (runState initialState evs)
      (.disconnect sid)).typingUsers sid = none := by
  have hts : TypingSub (runState initialState evs) :=
    run_typingSub evs initialState
      (fun s hs => by simp [initialState, jsGet] at hs)
  cases hu : jsGet (runState initialState evs).users sid with
  | none =>
      refine ⟨?_, ?_, ?_⟩
      · intro r hm
        simp only [stepState, step, hu] at hm
        rw [mem_ioLeaveAll] at hm
        exact hm.2 rfl
      · simp [stepState, step, hu]
      · simp only [stepState, step, hu]
        cases ht : jsGet (runState initialState evs).typingUsers sid with
        | none => rfl
        | some v =>
            exfalso
            have h2 := hts sid (by rw [ht]; rfl)
            rw [hu] at h2
            cases h2
  | some u =>
      refine ⟨?_, ?_, ?_⟩
      · intro r hm
        simp only [stepState, step, hu] at hm
        rw [mem_ioLeaveAll] at hm
        exact hm.2 rfl
      · simp only [stepState, step, hu]
        exact jsGet_del_self _ _
      · simp only [stepState, step, hu]
        exact jsGet_del_self _ _

/-! Claim C9. -/

/-- Claim C9 counterexample: the private message alice sends in stAB is
emitted with isPrivate true but with room equal to the string global —
createMessage defaults a missing room to global, so the room field of a
private message is not null. -/
theorem C9_counterexample :
    stepEmits 5 stAB (.privateMessage "a" "b" "hi") =
      [.privateMsg ["b", "a"]
        (createMessage 5 "alice" "a" (some "hi") none true none none)] ∧
    (createMessage 5 "alice" "a" (some "hi") none true none
      none).isPrivate = true ∧
    (createMessage 5 "alice" "a" (some "hi") none true none
      none).room = "global" := by
  decide

/-- Claim C9 (amended): every message the private_message handler creates
has isPrivate true and room equal to the default string global (the
handler passes no room and createMessage applies the or-default), so the
room field is never null. -/
theorem C9_private_room_default (c : Nat) (st : ServerState)
    (sid dest text : String) (u : UserRec)
    (hu : jsGet st.users sid = some u) :
    ∃ targets,
      step c st (.privateMessage sid dest text) =
        (st, [.privateMsg targets
          (createMessage c u.username sid (some text) none true none
            none)]) ∧
      (createMessage c u.username sid (some text) none true none
        none).isPrivate = true ∧
      (createMessage c u.username sid (some text) none true none
        none).room = "global" := by
  refine ⟨(ioMembers st.ioRooms dest).filter (fun s => s != sid) ++ [sid],
    ?_, rfl, rfl⟩
  simp [step, hu]

/-- Witness for C9: alice's private message in stAB. -/
theorem C9_private_room_default_witness :
    jsGet stAB.users "a" = some ⟨"alice", "a", "global"⟩ ∧
    ∃ targets,
      step 5 stAB (.privateMessage "a" "b" "hi") =
        (stAB, [.privateMsg targets
          (createMessage 5 "alice" "a" (some "hi") none true none
            none)]) ∧
      (createMessage 5 "alice" "a" (some "hi") none true none
        none).isPrivate = true ∧
      (createMessage 5 "alice" "a" (some "hi") none true none
        none).room = "global" :=
  ⟨by decide, C9_private_room_default 5 stAB "a" "b" "hi"
    ⟨"alice", "a", "global"⟩ (by decide)⟩

/-! Claim C10. -/

/-- Claim C10 counterexample: in stDup the two global messages share id
100; after a read receipt for id 100 only the first of them gains the
reader alice, the second keeps an empty readers list — so the reader is
not appended to every message with the given id. -/
theorem C10_counterexample :
    (jsGet (stepState 200 stDup (.readMessage "a" 100)).rooms
      "global").map (fun l => l.map (fun m => (m.id, m.readers))) =
      some [(100, ["alice"]), (100, [])] := by
  decide

/-- Claim C10 (amended): a read receipt from a registered session visits
every room independently: each room's log is rewritten by readLog, a
read-receipt notification is collected exactly for the rooms whose log
changed, and within one room's log only the first message whose id
matches gains the reader (when absent) while all other messages are left
untouched. In particular two messages with the same id in different rooms
are both mutated and both rooms notified, but a duplicate id inside one
log is mutated only at its first occurrence. -/
theorem C10_read_first_match (mid : Nat) (name : String)
    (rs : List (String × List Message)) (pre : List Message) (m : Message)
    (post : List Message) (hpre : ∀ m' ∈ pre, m'.id ≠ mid)
    (hm : m.id = mid) (hname : name ∉ m.readers) :
    (readRooms mid name rs).1 =
      rs.map (fun p => (p.1, (readLog mid name p.2).1)) ∧
    (readRooms mid name rs).2 =
      rs.filterMap (fun p =>
        ((readLog mid name p.2).2).map (fun l => (p.1, l))) ∧
    readLog mid name (pre ++ m :: post) =
      (pre ++ { m with readers := m.readers ++ [name] } :: post,
       some (m.readers ++ [name])) :=
  ⟨readRooms_fst_map mid name rs, readRooms_snd_filterMap mid name rs,
   readLog_first_match mid name pre m post hpre hm hname⟩

/-- Witness for C10: the read loop over the rooms of stDup, and the
first-match rewrite on a concrete log with a duplicated id. -/
theorem C10_read_first_match_witness :
    (∀ m' ∈ ([] : List Message), m'.id ≠ 100) ∧
    (createMessage 100 "alice" "a" (some "one") (some "global") false
      none none).id = 100 ∧
    "alice" ∉ (createMessage 100 "alice" "a" (some "one") (some "global")
      false none none).readers ∧
    ((readRooms 100 "alice" stDup.rooms).1 =
      stDup.rooms.map (fun p => (p.1, (readLog 100 "alice" p.2).1)) ∧
    (readRooms 100 "alice" stDup.rooms).2 =
      stDup.rooms.filterMap (fun p =>
        ((readLog 100 "alice" p.2).2).map (fun l => (p.1, l))) ∧
    readLog 100 "alice" ([] ++ (createMessage 100 "alice" "a" (some "one")
        (some "global") false none none) ::
        [createMessage 100 "alice" "a" (some "two") (some "global") false
          none none]) =
      ([] ++ { createMessage 100 "alice" "a" (some "one") (some "global")
          false none none with
        readers := (createMessage 100 "alice" "a" (some "one")
          (some "global") false none none).readers ++ ["alice"] } ::
        [createMessage 100 "alice" "a" (some "two") (some "global") false
          none none],
       some ((createMessage 100 "alice" "a" (some "one") (some "global")
         false none none).readers ++ ["alice"]))) :=
  ⟨by decide, by decide, by decide,
   C10_read_first_match 100 "alice" stDup.rooms []
     (createMessage 100 "alice" "a" (some "one") (some "global") false
       none none)
     [createMessage 100 "alice" "a" (some "two") (some "global") false
       none none]
     (by decide) (by decide) (by decide)⟩
